import Mathlib

/-!
Verification of the orbit repository's TLE parsing and orbital computations.

The parsing layer (tle.rs) is embedded over `List Char` with exact rational
values standing in for f64 decimal parses; Rust panics are modelled as an
explicit failure value distinct from `ParseError` returns.  The numeric layer
(satellite.rs) is embedded over the reals.  The Newton-Raphson utility comes
from the external roots crate and is modelled from the spec (section 4.2).
-/

set_option maxRecDepth 100000

namespace Orbit

/-- ASCII digit value, modelling Rust char::to_digit(10). -/
def charToDigit (c : Char) : Option Nat :=
  if c.isDigit then some (c.toNat - 48) else none

/-- All characters are ASCII digits. -/
def allDigits (l : List Char) : Bool := l.all Char.isDigit

/-- Value of a digit string, most significant digit first. -/
def digitsToNat (l : List Char) : Nat := l.foldl (fun a c => a * 10 + (c.toNat - 48)) 0

/-- Index of the first character satisfying p, modelling Rust str::find on ASCII. -/
def findIdxO (p : Char → Bool) : List Char → Option Nat
  | [] => none
  | c :: cs => if p c then some 0 else (findIdxO p cs).map (· + 1)

/-- Rust str::trim; the fields handled here only carry ASCII spaces. -/
def rustTrim (l : List Char) : List Char :=
  ((l.dropWhile Char.isWhitespace).reverse.dropWhile Char.isWhitespace).reverse

/-- Worker for listReplace, structurally recursive on a fuel argument that
always dominates the length of the remaining text. -/
def listReplaceAux (pat rep : List Char) : Nat → List Char → List Char
  | _, [] => []
  | 0, s => s
  | fuel + 1, c :: cs =>
    if pat ≠ [] ∧ pat.isPrefixOf (c :: cs) then
      rep ++ listReplaceAux pat rep fuel ((c :: cs).drop pat.length)
    else
      c :: listReplaceAux pat rep fuel cs

/-- Rust String::replace: replace every non-overlapping occurrence of pat,
scanning left to right. -/
def listReplace (pat rep s : List Char) : List Char :=
  listReplaceAux pat rep s.length s

/-- Split a character list at newline characters. -/
def splitNL : List Char → List (List Char)
  | [] => [[]]
  | c :: cs =>
    match splitNL cs with
    | [] => [[c]]
    | h :: t => if c = '\n' then [] :: h :: t else (c :: h) :: t

/-- Rust str::lines: newline terminates rather than separates the final line,
and a trailing carriage return is stripped from each line. -/
def rustLines (s : List Char) : List (List Char) :=
  if s.isEmpty then []
  else
    let parts := splitNL s
    let parts := if parts.getLast? = some [] then parts.dropLast else parts
    parts.map fun l => if l.getLast? = some '\r' then l.dropLast else l

/-- Strip one optional leading sign, returning the sign value and the rest. -/
def signSplit (s : List Char) : Int × List Char :=
  match s with
  | c :: r => if c = '+' then (1, r) else if c = '-' then (-1, r) else (1, s)
  | [] => (1, [])

/-- Rust str::parse for a signed integer type: optional sign, one or more
digits, failing outside the inclusive bounds of the target type. -/
def parseIntSigned (lo hi : Int) (s : List Char) : Option Int :=
  let p := signSplit s
  if p.2.isEmpty then none
  else if allDigits p.2 then
    let v : Int := p.1 * (digitsToNat p.2 : Int)
    if lo ≤ v ∧ v ≤ hi then some v else none
  else none

/-- Rust str::parse::<u32>: optional plus sign, digits, bounded by u32::MAX. -/
def parseU32 (s : List Char) : Option Nat :=
  let rest := match s with
    | c :: r => if c = '+' then r else s
    | [] => s
  if rest.isEmpty then none
  else if allDigits rest then
    let v := digitsToNat rest
    if v ≤ 4294967295 then some v else none
  else none

/-- Unbounded integer literal: optional sign then one or more digits, as in the
exponent part of a float literal. -/
def parseIntRaw (s : List Char) : Option Int :=
  let p := signSplit s
  if p.2.isEmpty then none
  else if allDigits p.2 then some (p.1 * (digitsToNat p.2 : Int)) else none

/-- Multiply a rational by an integer.  Stated through mkRat so that concrete
evaluations reduce; qMulInt_eq relates it to ordinary multiplication. -/
def qMulInt (q : ℚ) (z : Int) : ℚ := mkRat (q.num * z) q.den

/-- Multiply a rational by a natural number, through mkRat. -/
def qMulNat (q : ℚ) (n : Nat) : ℚ := mkRat (q.num * n) q.den

/-- Subtract an integer from a rational, through mkRat. -/
def qSubInt (q : ℚ) (z : Int) : ℚ := mkRat (q.num - z * q.den) q.den

/-- Scale a rational by an integer power of ten, through mkRat. -/
def qScale10 (q : ℚ) (e : Int) : ℚ :=
  if 0 ≤ e then mkRat (q.num * 10 ^ e.toNat) q.den
  else mkRat q.num (q.den * 10 ^ (-e).toNat)

/-- Decimal mantissa of a float literal: digits with at most one dot and at
least one digit overall, with its exact rational value. -/
def parseMantissa (s : List Char) : Option ℚ :=
  match findIdxO (· == '.') s with
  | none => if !s.isEmpty && allDigits s then some (mkRat (digitsToNat s) 1) else none
  | some i =>
    let a := s.take i
    let b := s.drop (i + 1)
    if !(a ++ b).isEmpty && allDigits a && allDigits b then
      some (mkRat ((digitsToNat a : Int) * 10 ^ b.length + (digitsToNat b : Int)) (10 ^ b.length))
    else none

/-- Rust str::parse::<f64> on plain decimal text, with the exact rational value
of the literal: sign, mantissa, optional exponent introduced by e or E.  The
keyword forms inf and NaN are outside this model; every field parsed by the
program is plain numeric text. -/
def parseF (s : List Char) : Option ℚ :=
  let p := signSplit s
  if p.2.isEmpty then none
  else
    match findIdxO (fun c => c == 'e' || c == 'E') p.2 with
    | none => (parseMantissa p.2).map (fun v => qMulInt v p.1)
    | some i =>
      match parseMantissa (p.2.take i), parseIntRaw (p.2.drop (i + 1)) with
      | some mv, some ev => some (qScale10 (qMulInt mv p.1) ev)
      | _, _ => none

/-- tle.rs fix_string, translated clause for clause.  none marks the inputs on
which the Rust code panics: a string whose first character is the only minus
sign and whose length is below three makes the slice bounds underflow. -/
def fix_string (s : List Char) : Option (List Char) :=
  if ['-', '.'].isPrefixOf s then some (listReplace ['-', '.'] ['-', '0', '.'] s)
  else if ['.'].isPrefixOf s then some ('0' :: s)
  else
    match findIdxO (· == '-') s with
    | some 0 =>
      if 3 ≤ s.length then
        some (['-', '0', '.'] ++ (s.drop 1).take (s.length - 3) ++ 'e' :: s.drop (s.length - 2))
      else none
    | some _ =>
      some (['0', '.'] ++ s.take (s.length - 2) ++ 'e' :: s.drop (s.length - 2))
    | none => some (listReplace ['+', '0'] ['e', '+', '0'] ('0' :: '.' :: s))

/-- The fold inside tle.rs line_checksum, applied to the line minus its final
character: keep digits and minus signs, add the digit value, or 1 for a minus
sign, and reduce modulo 10. -/
def checksumFold (l : List Char) : Nat :=
  ((l.filter fun c => c.isDigit || c == '-').foldl
    (fun acc c => acc + (charToDigit c).getD 1) 0) % 10

/-- tle.rs line_checksum.  none models the unwrap panic when the line is empty
or its final character is not a digit. -/
def line_checksum (l : List Char) : Option Bool :=
  match l.reverse with
  | [] => none
  | c :: rest =>
    match charToDigit c with
    | none => none
    | some expected => some (checksumFold rest == expected)

/-- Spec formula for the check digit: each digit counts its value, each literal
minus sign counts 1, every other character counts 0, summed over the characters
before the check digit and reduced modulo 10. -/
def checksum_spec (l : List Char) : Nat :=
  ((l.dropLast.map fun c =>
    if c.isDigit then c.toNat - 48 else if c == '-' then 1 else 0).sum) % 10

/-- A line passes the spec checksum: its final character is a digit equal to the
spec formula over the preceding characters. -/
def checksum_spec_pass (l : List Char) : Bool :=
  match l.getLast? with
  | some c => c.isDigit && (checksum_spec l == c.toNat - 48)
  | none => false

inductive Classification
  | Unclassified
  | Other
  deriving DecidableEq

/-- Element epoch as reconstructed in TLE::new: year, ordinal day, seconds and
nanoseconds past midnight. -/
structure Timestamp where
  year : Int
  dayOfYear : Nat
  secs : Nat
  nanos : Nat
  deriving DecidableEq

structure TLE where
  name : List Char
  satellite_number : Int
  classification : Classification
  id_launch_year : Int
  id_launch_number : Int
  id_launch_piece : List Char
  timestamp : Timestamp
  mean_motion_d : ℚ
  mean_motion_dd : ℚ
  bstar : ℚ
  set_number : Int
  inclination : ℚ
  right_ascension : ℚ
  eccentricity : ℚ
  perigree : ℚ
  mean_anomaly : ℚ
  mean_motion : ℚ
  revolution_number : Int
  valid : Bool
  deriving DecidableEq

/-- Outcome kinds of TLE::new: a ParseError result or a panic. -/
inductive Fail
  | parseErr
  | panicked
  deriving DecidableEq

abbrev P (α : Type) := Except Fail α

instance exceptDecEq {ε α : Type} [DecidableEq ε] [DecidableEq α] :
    DecidableEq (Except ε α)
  | .ok a, .ok b =>
    if h : a = b then .isTrue (by rw [h]) else .isFalse (by intro hc; cases hc; exact h rfl)
  | .error a, .error b =>
    if h : a = b then .isTrue (by rw [h]) else .isFalse (by intro hc; cases hc; exact h rfl)
  | .ok _, .error _ => .isFalse (by intro hc; cases hc)
  | .error _, .ok _ => .isFalse (by intro hc; cases hc)

/-- Rust try! around a parse: a failed parse becomes a ParseError return. -/
def tryP {α : Type} (o : Option α) : P α :=
  match o with
  | some a => .ok a
  | none => .error .parseErr

/-- Rust unwrap: a missing value is a panic. -/
def unwrapP {α : Type} (o : Option α) : P α :=
  match o with
  | some a => .ok a
  | none => .error .panicked

/-- Rust byte-range slicing line[a..b], which panics on an invalid range. -/
def sliceP (l : List Char) (a b : Nat) : P (List Char) :=
  if a ≤ b ∧ b ≤ l.length then .ok ((l.drop a).take (b - a)) else .error .panicked

/-- Truncation toward zero of a rational, as in Rust float-to-integer casts and
the float remainder against 1.0. -/
def ratTrunc (q : ℚ) : Int := Int.tdiv q.num (q.den : Int)

/-- Rust cast from f64 to u32: truncate toward zero, clamp to the u32 range
(the sign test is on the numerator, which for a rational decides q ≤ 0). -/
def castU32 (q : ℚ) : Nat :=
  if q.num ≤ 0 then 0 else min (ratTrunc q).toNat 4294967295

def isLeapYear (y : Int) : Bool :=
  (y % 4 == 0) && (y % 100 != 0 || y % 400 == 0)

/-- The timestamp expression in TLE::new: two-digit year plus 2000, ordinal day,
fractional day converted to seconds and nanoseconds.  The three inner parses
call unwrap, so malformed content panics; chrono's yo and
from_num_seconds_from_midnight panic on out-of-range day or time values (the
ok_or branch guards and_time, which never fails for UTC). -/
def parseTimestamp (line1 : List Char) : P Timestamp := do
  let ys ← sliceP line1 18 20
  let y ← unwrapP (parseIntSigned (-2147483648) 2147483647 ys)
  let year := 2000 + y
  let ds ← sliceP line1 20 23
  let days ← unwrapP (parseU32 ds)
  let fs ← sliceP line1 23 32
  let frac ← unwrapP (parseF fs)
  let offset : ℚ := qMulNat frac (3600 * 24)
  let secs := castU32 offset
  let nanos := castU32 (qMulNat (qSubInt offset (ratTrunc offset)) 1000000000)
  let dy : Nat := if isLeapYear year then 366 else 365
  if days = 0 ∨ dy < days then .error .panicked
  else if 86400 ≤ secs ∨ 2000000000 ≤ nanos then .error .panicked
  else pure ⟨year, days, secs, nanos⟩

/-- fix_string then parse, with a panic from fix_string kept as a panic and a
failed parse kept as a ParseError, as in the source expressions. -/
def decodeP (s : List Char) : P ℚ :=
  match fix_string s with
  | none => .error .panicked
  | some f => tryP (parseF f)

/-- fix_string then parse as one optional value, the decoding of a compact
assumed-decimal-point field. -/
def decodeO (s : List Char) : Option ℚ :=
  match fix_string s with
  | none => none
  | some f => parseF f

/-- tle.rs TLE::new applied to the three lines of one record, fields evaluated
in source order. -/
def tleNewLines (name line1 line2 : List Char) : P TLE := do
  let snS ← sliceP line1 2 7
  let satellite_number ← tryP (parseIntSigned (-32768) 32767 snS)
  let c8 ← unwrapP (line1.get? 8)
  let classification := if c8 = 'U' then Classification.Unclassified else Classification.Other
  let lyS ← sliceP line1 9 11
  let id_launch_year ← tryP (parseIntSigned (-128) 127 lyS)
  let lnS ← sliceP line1 11 14
  let id_launch_number ← tryP (parseIntSigned (-32768) 32767 lnS)
  let lpS ← sliceP line1 14 17
  let id_launch_piece := rustTrim lpS
  let timestamp ← parseTimestamp line1
  let mdS ← sliceP line1 33 43
  let md ← decodeP (rustTrim mdS)
  let mean_motion_d := qMulNat md 2
  let mddS ← sliceP line1 44 52
  let mdd ← decodeP (rustTrim mddS)
  let mean_motion_dd := qMulNat mdd 6
  let bsS ← sliceP line1 53 61
  let bstar ← decodeP (rustTrim bsS)
  let setS ← sliceP line1 64 68
  let set_number ← tryP (parseIntSigned (-2147483648) 2147483647 (rustTrim setS))
  let incS ← sliceP line2 8 16
  let inclination ← tryP (parseF (rustTrim incS))
  let raS ← sliceP line2 17 25
  let right_ascension ← tryP (parseF (rustTrim raS))
  let ecS ← sliceP line2 26 33
  let eccentricity ← decodeP (rustTrim ecS)
  let pgS ← sliceP line2 34 42
  let perigree ← tryP (parseF (rustTrim pgS))
  let maS ← sliceP line2 43 51
  let mean_anomaly ← tryP (parseF (rustTrim maS))
  let mmS ← sliceP line2 52 63
  let mean_motion ← tryP (parseF (rustTrim mmS))
  let rvS ← sliceP line2 63 68
  let revolution_number ← tryP (parseIntSigned (-2147483648) 2147483647 (rustTrim rvS))
  let v1 ← unwrapP (line_checksum line1)
  let v2 ← unwrapP (line_checksum line2)
  pure ⟨name, satellite_number, classification, id_launch_year, id_launch_number,
        id_launch_piece, timestamp, mean_motion_d, mean_motion_dd, bstar, set_number,
        inclination, right_ascension, eccentricity, perigree, mean_anomaly, mean_motion,
        revolution_number, v1 && v2⟩

/-- TLE::new: split the input into lines and read the first three; fewer than
three lines panics on the vector indexing, as in the source. -/
def tleNew (input : List Char) : P TLE :=
  match rustLines input with
  | n :: l1 :: l2 :: _ => tleNewLines n l1 l2
  | _ => .error .panicked

/-- Project one field out of a successful parse. -/
def tleField {α : Type} (f : TLE → α) : P TLE → Option α
  | .ok t => some (f t)
  | _ => none

/-- Whether a parse produced a TLE. -/
def isOkB {α : Type} : P α → Bool
  | .ok _ => true
  | _ => false

/-- body.rs Body over the reals. -/
structure RBody where
  mu : ℝ
  radius : ℝ
  j2 : ℝ
  lambda : ℝ
  we : ℝ

/-- body.rs EARTH constants. -/
noncomputable def EARTH : RBody :=
  ⟨398600, 6378.14, 0.00108263, 99.281, 360.98564735⟩

/-- One Newton-Raphson update x - f x / fp x. -/
noncomputable def newtonStep (f fp : ℝ → ℝ) (x : ℝ) : ℝ := x - f x / fp x

open Classical in
/-- Modelled from the spec: the RootSolver worker (spec section 4.2); the roots
crate providing find_root_newton_raphson is a dependency whose code is not in
this repository.  Iterate the Newton update until the residual is within eps,
or fail once the fuel (iteration cap plus the seed check) runs out. -/
noncomputable def newtonGo (f fp : ℝ → ℝ) (eps : ℝ) : Nat → ℝ → Option ℝ
  | 0, _ => none
  | fuel + 1, x => if |f x| < eps then some x else newtonGo f fp eps fuel (newtonStep f fp x)

/-- Modelled from the spec: roots::find_root_newton_raphson with
SimpleConvergency, run from the initial guess with the given tolerance and
iteration cap; a non-converged solve yields no value, never a default. -/
noncomputable def find_root_newton_raphson
    (x0 : ℝ) (f fp : ℝ → ℝ) (eps : ℝ) (maxIter : Nat) : Option ℝ :=
  newtonGo f fp eps (maxIter + 1) x0

/-- satellite.rs period_of_revolution: 86400 / mean motion (rev/day), seconds. -/
noncomputable def period_of_revolution (mm : ℝ) : ℝ := 86400 / mm

/-- satellite.rs semimajor_axis_ideal: cbrt(mu * (period / 2 pi)^2); cbrt on the
nonnegative domain rendered as the real power 1/3. -/
noncomputable def semimajor_axis_ideal (mu mm : ℝ) : ℝ :=
  (mu * (period_of_revolution mm / (2 * Real.pi)) ^ 2) ^ ((1 : ℝ) / 3)

/-- satellite.rs distance_perigee: ideal semi-major axis times (1 - e). -/
noncomputable def distance_perigee (mu mm ecc : ℝ) : ℝ :=
  semimajor_axis_ideal mu mm * (1 - ecc)

/-- The tmp factor of semimajor_axis_approx:
(1 - e^2)^(-1.5) * (1 - 1.5 sin^2 i), inclination in degrees. -/
noncomputable def j2_tmp (ecc incl : ℝ) : ℝ :=
  (1 - ecc ^ 2) ^ (-(1.5 : ℝ)) * (1 - 1.5 * Real.sin (incl * Real.pi / 180) ^ 2)

/-- The J2-perturbed mean motion n(a) inside semimajor_axis_approx. -/
noncomputable def n_of_a (b : RBody) (ecc incl a : ℝ) : ℝ :=
  Real.sqrt (b.mu / a ^ 3) * (1 + 1.5 * b.j2 * (b.radius / a) ^ 2 * j2_tmp ecc incl)

/-- The derivative closure n_deriv inside semimajor_axis_approx. -/
noncomputable def n_deriv_of_a (b : RBody) (ecc incl a : ℝ) : ℝ :=
  Real.sqrt b.mu *
    ((-1.5) * a ^ (-(2.5 : ℝ)) + (-3.5) * a ^ (-(4.5 : ℝ)) * 1.5 * b.j2 * b.radius ^ 2 * j2_tmp ecc incl)

/-- n_norad: the catalog mean motion in radians per second, 2 pi / period. -/
noncomputable def n_norad (mm : ℝ) : ℝ := 2 * Real.pi / period_of_revolution mm

/-- satellite.rs semimajor_axis_approx: Newton-Raphson on n(a) - n_norad from
the ideal axis, eps 1.0e-14, cap 50 iterations. -/
noncomputable def semimajor_axis_approx (b : RBody) (ecc incl mm : ℝ) : Option ℝ :=
  find_root_newton_raphson (semimajor_axis_ideal b.mu mm)
    (fun a => n_of_a b ecc incl a - n_norad mm) (n_deriv_of_a b ecc incl) 1e-14 50

/-- A toy body with strong oblateness for the C6 analysis: mu = 4 pi^2, unit
radius, J2 = 1; with mean motion 86400 rev/day the ideal axis is exactly 1. -/
noncomputable def cbody : RBody := ⟨4 * Real.pi ^ 2, 1, 1, 0, 0⟩

/-- A body with zero oblateness coefficient. -/
noncomputable def zbody : RBody := ⟨1, 1, 0, 0, 0⟩

/-- chrono Duration::num_seconds on a nanosecond count: whole seconds,
truncated toward zero. -/
def num_seconds (ns : Int) : Int := Int.tdiv ns 1000000000

/-- Rust as i32: two's-complement wrap into the i32 range. -/
def wrap32 (x : Int) : Int := (x + 2147483648) % 4294967296 - 2147483648

/-- The sample-timestamp skeleton of track.rs calculate (and the pre-filter map
of horizon.rs): steps = 1 + (end - start).num_seconds() / step.num_seconds()
as i64 division cast to i32, and sample i carries timestamp start + step * i.
none models the division-by-zero panic raised when the step is under a second;
time instants and durations are counted in nanoseconds. -/
def track_sample_times (start endT step : Int) : Option (List Int) :=
  let ss := num_seconds step
  if ss = 0 then none
  else
    let steps := wrap32 (1 + Int.tdiv (num_seconds (endT - start)) ss)
    some ((List.range steps.toNat).map fun (i : Nat) => start + step * (i : Int))

/-- The MOLNIYA 1-81 record bundled with the parser tests, with the Rust line
continuations resolved. -/
def molniyaRaw : String :=
  "MOLNIYA 1-81\n1 21426U 91043A   15108.55037587 -.00000207  00000-0 -31134-2 0  9992\n2 21426  63.2890 290.2925 7228326 283.8438  15.2252  2.00627254174658"

def molniyaStr : List Char := molniyaRaw.toList

/-- The ISS record bundled with the satellite tests. -/
def issRaw : String :=
  "ISS\n1 25544U 98067A   06040.85138889  .00012260  00000-0  86027-4 0  3194\n2 25544  51.6448 122.3522 0008835 257.3473 251.7436 15.74622749413094"

def issStr : List Char := issRaw.toList

/-- Name line of the MOLNIYA record. -/
def molniyaName : List Char := ("MOLNIYA 1-81").toList

/-- Element line 1 of the MOLNIYA record. -/
def molniyaL1 : List Char :=
  ("1 21426U 91043A   15108.55037587 -.00000207  00000-0 -31134-2 0  9992").toList

/-- Element line 2 of the MOLNIYA record. -/
def molniyaL2 : List Char :=
  ("2 21426  63.2890 290.2925 7228326 283.8438  15.2252  2.00627254174658").toList

/-- MOLNIYA line 2 with its check digit changed from 8 to 9: every field still
parses, but the checksum no longer matches. -/
def badL2 : List Char :=
  ("2 21426  63.2890 290.2925 7228326 283.8438  15.2252  2.00627254174659").toList

/-- MOLNIYA line 1 with the space at byte index 8 replaced by U, placing U at
the index the code actually inspects. -/
def molUL1 : List Char :=
  ("1 21426UU91043A   15108.55037587 -.00000207  00000-0 -31134-2 0  9992").toList

/-- The MOLNIYA record with the two epoch-year digits of line 1 replaced by XX:
well-formed layout, malformed numeric content in a timestamp subfield. -/
def badTimestampRaw : String :=
  "MOLNIYA 1-81\n1 21426U 91043A   XX108.55037587 -.00000207  00000-0 -31134-2 0  9992\n2 21426  63.2890 290.2925 7228326 283.8438  15.2252  2.00627254174658"

def badTimestampStr : List Char := badTimestampRaw.toList

/-- The MOLNIYA record with the final check digit of line 2 changed from 8 to 9,
so line 2 fails checksum validation while every field still parses. -/
def badChecksumRaw : String :=
  "MOLNIYA 1-81\n1 21426U 91043A   15108.55037587 -.00000207  00000-0 -31134-2 0  9992\n2 21426  63.2890 290.2925 7228326 283.8438  15.2252  2.00627254174659"

def badChecksumStr : List Char := badChecksumRaw.toList

theorem q_mul_den (q : ℚ) : q * (q.den : ℚ) = (q.num : ℚ) := by
  have hd : ((q.den : ℚ)) ≠ 0 := by positivity
  nth_rewrite 1 [← Rat.num_div_den q]
  exact div_mul_cancel₀ _ hd

theorem qMulInt_eq (q : ℚ) (z : Int) : qMulInt q z = q * z := by
  rw [qMulInt, Rat.mkRat_eq_div]
  conv_rhs => rw [← Rat.num_div_den q]
  push_cast
  ring

theorem qMulNat_eq (q : ℚ) (n : Nat) : qMulNat q n = q * n := by
  rw [qMulNat, Rat.mkRat_eq_div]
  conv_rhs => rw [← Rat.num_div_den q]
  push_cast
  ring

theorem qSubInt_eq (q : ℚ) (z : Int) : qSubInt q z = q - z := by
  rw [qSubInt, Rat.mkRat_eq_div]
  have hd : ((q.den : ℚ)) ≠ 0 := by positivity
  rw [div_eq_iff hd, sub_mul, q_mul_den]
  push_cast
  ring

theorem qScale10_eq (q : ℚ) (e : Int) : qScale10 q e = q * (10 : ℚ) ^ e := by
  unfold qScale10
  split
  · next hpos =>
    rw [Rat.mkRat_eq_div]
    conv_rhs => rw [← Rat.num_div_den q, ← Int.toNat_of_nonneg hpos, zpow_natCast]
    push_cast
    ring
  · next hneg =>
    have he : e = -((-e).toNat : Int) := by omega
    rw [Rat.mkRat_eq_div]
    conv_rhs => rw [← Rat.num_div_den q, he]
    rw [zpow_neg, zpow_natCast]
    push_cast
    rw [div_mul_eq_div_div, div_div]
    ring_nf

theorem mkRat_pow10 (x : Int) (L : Nat) : mkRat x (10 ^ L) = (x : ℚ) / 10 ^ L := by
  rw [Rat.mkRat_eq_div]
  push_cast
  ring_nf

theorem mkRat_int (z : Int) : mkRat z 1 = (z : ℚ) := by
  rw [Rat.mkRat_eq_div]
  simp

theorem tryP_ok {α : Type} {o : Option α} {a : α} : tryP o = .ok a ↔ o = some a := by
  cases o <;> simp [tryP]

theorem unwrapP_ok {α : Type} {o : Option α} {a : α} : unwrapP o = .ok a ↔ o = some a := by
  cases o <;> simp [unwrapP]

theorem decodeP_ok {s : List Char} {v : ℚ} : decodeP s = .ok v ↔ decodeO s = some v := by
  unfold decodeP decodeO
  cases fix_string s with
  | none => simp
  | some f => cases hp : parseF f <;> simp [tryP, hp]

/-- Full inversion of a successful TLE parse, exposing the relations between
the produced fields and the source line slices that the claims reference. -/
theorem tleNewLines_ok_inv {n l1 l2 : List Char} {t : TLE}
    (h : tleNewLines n l1 l2 = .ok t) :
    t.name = n ∧
    (∃ c, l1.get? 8 = some c ∧
      t.classification = (if c = 'U' then Classification.Unclassified else Classification.Other)) ∧
    (∃ s v, sliceP l1 33 43 = .ok s ∧ decodeO (rustTrim s) = some v ∧
      t.mean_motion_d = qMulNat v 2) ∧
    (∃ s v, sliceP l1 44 52 = .ok s ∧ decodeO (rustTrim s) = some v ∧
      t.mean_motion_dd = qMulNat v 6) ∧
    (∃ b1 b2, line_checksum l1 = some b1 ∧ line_checksum l2 = some b2 ∧
      t.valid = (b1 && b2)) := by
  unfold tleNewLines at h
  simp only [bind, Except.bind, pure, Except.pure] at h
  repeat' split at h
  all_goals try exact Except.noConfusion h
  all_goals
    injection h with h
    subst h
    exact ⟨rfl, ⟨_, unwrapP_ok.mp (by assumption), by dsimp only; split <;> simp_all⟩,
      ⟨_, _, by assumption, decodeP_ok.mp (by assumption), rfl⟩,
      ⟨_, _, by assumption, decodeP_ok.mp (by assumption), rfl⟩,
      ⟨_, _, unwrapP_ok.mp (by assumption), unwrapP_ok.mp (by assumption), rfl⟩⟩

theorem foldl_filter_sum (p : Char → Bool) (f : Char → Nat) (xs : List Char) :
    ∀ acc : Nat, (xs.filter p).foldl (fun a c => a + f c) acc =
      acc + (xs.map fun c => if p c then f c else 0).sum := by
  induction xs with
  | nil => intro acc; simp
  | cons c cs ih =>
    intro acc
    rw [List.filter_cons]
    by_cases hp : p c
    · rw [if_pos (by rw [hp]), List.foldl_cons, ih, List.map_cons, List.sum_cons, if_pos hp]
      omega
    · rw [if_neg (by rw [Bool.eq_false_iff.mpr hp]; simp), ih,
        List.map_cons, List.sum_cons, if_neg hp]
      omega

theorem checksum_score_eq (c : Char) :
    (if (c.isDigit || c == '-') then (charToDigit c).getD 1 else 0) =
      (if c.isDigit then c.toNat - 48 else if c == '-' then 1 else 0) := by
  by_cases hd : c.isDigit
  · rw [if_pos (by rw [hd]; rfl), if_pos hd]
    unfold charToDigit
    rw [if_pos hd]
    rfl
  · by_cases hm : c = '-'
    · subst hm
      rfl
    · have hb : (c == '-') = false := by simpa using hm
      rw [if_neg hd, if_neg (by rw [Bool.eq_false_iff.mpr hd, hb]; simp), if_neg (by simp [hb])]

theorem checksumFold_eq_sum (xs : List Char) :
    checksumFold xs = ((xs.map fun c =>
      if c.isDigit then c.toNat - 48 else if c == '-' then 1 else 0).sum) % 10 := by
  unfold checksumFold
  rw [foldl_filter_sum (fun c => c.isDigit || c == '-')
    (fun c => (charToDigit c).getD 1) xs 0, Nat.zero_add]
  congr 1
  congr 1
  apply List.map_congr_left
  intro c _
  exact checksum_score_eq c

/-- The parser's reversed-fold checksum computes exactly the spec formula, and
validation compares it with the trailing digit: line_checksum agrees with
checksum_spec_pass whenever it returns at all. -/
theorem line_checksum_eq_spec {l : List Char} {b : Bool}
    (h : line_checksum l = some b) : checksum_spec_pass l = b := by
  unfold line_checksum at h
  cases hr : l.reverse with
  | nil => rw [hr] at h; exact absurd h (by simp)
  | cons c rest =>
    rw [hr] at h
    dsimp only at h
    have hl : l = rest.reverse ++ [c] := by
      have h2 := congrArg List.reverse hr
      simpa using h2
    cases hcd : charToDigit c with
    | none => rw [hcd] at h; exact absurd h (by simp)
    | some e =>
      rw [hcd] at h
      simp only [Option.some.injEq] at h
      have hdig : c.isDigit = true ∧ e = c.toNat - 48 := by
        unfold charToDigit at hcd
        by_cases hc : c.isDigit
        · rw [if_pos hc] at hcd
          exact ⟨hc, by injection hcd with h3; omega⟩
        · rw [if_neg hc] at hcd; exact absurd hcd (by simp)
      have hsum : checksumFold rest = checksum_spec l := by
        rw [checksumFold_eq_sum]
        unfold checksum_spec
        rw [hl, List.dropLast_concat]
        congr 1
        rw [List.map_reverse, List.sum_reverse]
      unfold checksum_spec_pass
      rw [hl, List.getLast?_concat, ← hl]
      dsimp only
      rw [hdig.1, Bool.true_and, ← hsum, ← hdig.2]
      exact h

theorem newtonGo_some {f fp : ℝ → ℝ} {eps : ℝ} :
    ∀ {fuel : Nat} {x0 x : ℝ}, newtonGo f fp eps fuel x0 = some x →
      ∃ k, k < fuel ∧ x = (newtonStep f fp)^[k] x0 ∧ |f x| < eps := by
  intro fuel
  induction fuel with
  | zero => intro x0 x h; simp [newtonGo] at h
  | succ m ih =>
    intro x0 x h
    rw [newtonGo] at h
    split at h
    · next hcond =>
      injection h with h
      subst h
      exact ⟨0, Nat.succ_pos m, rfl, hcond⟩
    · obtain ⟨k, hk, hx, hf⟩ := ih h
      refine ⟨k + 1, by omega, ?_, hf⟩
      rw [hx, Function.iterate_succ_apply]

/-- A seed already within tolerance is returned unchanged. -/
theorem newtonGo_of_root {f fp : ℝ → ℝ} {eps x0 : ℝ} (h : |f x0| < eps) (fuel : Nat) :
    newtonGo f fp eps (fuel + 1) x0 = some x0 := by
  rw [newtonGo, if_pos h]

theorem Fail_intro {α : Type} {r : P α} (h : isOkB r = true) : ∃ t, r = .ok t := by
  cases r with
  | ok t => exact ⟨t, rfl⟩
  | error e => exact absurd h (by simp [isOkB])

/-- C1: the claim says TLE::new returns a DeserializationError::ParseError on
malformed numeric content in every fixed-width subfield, including the epoch
subfields of line 1, and never panics.  The code parses the epoch subfields
with unwrap (tle.rs lines 165-167): on a record that is well-formed except for
the two epoch-year characters being XX, the parse panics and does not produce
a ParseError result. -/
theorem C1_timestamp_unwrap_panics :
    tleNew badTimestampStr = .error .panicked ∧
    tleNew badTimestampStr ≠ .error .parseErr := by
  refine ⟨by decide, ?_⟩
  intro hc
  exact absurd (by decide : tleNew badTimestampStr = .error .panicked)
    (by rw [hc]; intro h2; exact Fail.noConfusion (Except.error.inj h2))

/-- C2: the checksum the parser computes for a line equals, modulo 10, the sum
over the characters before the trailing check digit counting digits at value
and each minus sign as 1, and a record that TLE::new returns at all is marked
valid exactly when both element lines pass that comparison against their
trailing digit (the witness shows a mismatched record still returns Ok, with
valid false). -/
theorem C2_checksum_valid (n l1 l2 : List Char) (t : TLE)
    (h : tleNewLines n l1 l2 = .ok t) :
    t.valid = (checksum_spec_pass l1 && checksum_spec_pass l2) := by
  obtain ⟨-, -, -, -, b1, b2, hc1, hc2, hv⟩ := tleNewLines_ok_inv h
  rw [hv, line_checksum_eq_spec hc1, line_checksum_eq_spec hc2]

/-- Witness for C2: the MOLNIYA record with a corrupted line-2 check digit
still parses Ok, and its validity flag is false. -/
theorem C2_checksum_valid_witness :
    ∃ t, tleNewLines molniyaName molniyaL1 badL2 = .ok t ∧ t.valid = false := by
  obtain ⟨t, hE⟩ := Fail_intro (r := tleNewLines molniyaName molniyaL1 badL2) (by decide)
  refine ⟨t, hE, ?_⟩
  rw [C2_checksum_valid _ _ _ _ hE]
  decide

/-- C9: in every successfully parsed TLE, mean_motion_d is twice the value
decoded from line-1 columns 33-43 and mean_motion_dd is six times the value
decoded from columns 44-52; the raw decoded values are not what is stored. -/
theorem C9_derivative_scaling (n l1 l2 : List Char) (t : TLE)
    (h : tleNewLines n l1 l2 = .ok t) :
    (∃ s v, sliceP l1 33 43 = .ok s ∧ decodeO (rustTrim s) = some v ∧
      t.mean_motion_d = 2 * v) ∧
    (∃ s v, sliceP l1 44 52 = .ok s ∧ decodeO (rustTrim s) = some v ∧
      t.mean_motion_dd = 6 * v) := by
  obtain ⟨-, -, ⟨s1, v1, hs1, hd1, he1⟩, ⟨s2, v2, hs2, hd2, he2⟩, -⟩ := tleNewLines_ok_inv h
  refine ⟨⟨s1, v1, hs1, hd1, ?_⟩, ⟨s2, v2, hs2, hd2, ?_⟩⟩
  · rw [he1, qMulNat_eq]; push_cast; ring
  · rw [he2, qMulNat_eq]; push_cast; ring

/-- Witness for C9: on the MOLNIYA record the raw decoded first-derivative
field is -0.00000207 and the stored mean_motion_d is twice that. -/
theorem C9_derivative_scaling_witness :
    ∃ t, tleNewLines molniyaName molniyaL1 molniyaL2 = .ok t ∧
      t.mean_motion_d = 2 * mkRat (-207) 100000000 := by
  obtain ⟨t, hE⟩ := Fail_intro (r := tleNewLines molniyaName molniyaL1 molniyaL2) (by decide)
  obtain ⟨⟨s, v, hs, hd, he⟩, -⟩ := C9_derivative_scaling _ _ _ t hE
  have hs2 : sliceP molniyaL1 33 43 = .ok (("-.00000207").toList) := by decide
  rw [hs2] at hs
  injection hs with hs
  subst hs
  have hd2 : decodeO (rustTrim (("-.00000207").toList)) = some (mkRat (-207) 100000000) := by
    decide
  rw [hd2] at hd
  injection hd with hd
  subst hd
  exact ⟨t, hE, he⟩

/-- C10: TLE::new assigns Unclassified exactly when byte index 8 of line 1 is
U and Other for any other byte there; both bundled fixtures carry U at index 7
and a space at index 8, so both parse with classification Other. -/
theorem C10_classification :
    (∀ (n l1 l2 : List Char) (t : TLE), tleNewLines n l1 l2 = .ok t →
      ((t.classification = Classification.Unclassified ↔ l1.get? 8 = some 'U') ∧
       (t.classification = Classification.Other ↔ l1.get? 8 ≠ some 'U'))) ∧
    tleField (fun t => t.classification) (tleNew molniyaStr) = some Classification.Other ∧
    tleField (fun t => t.classification) (tleNew issStr) = some Classification.Other := by
  refine ⟨?_, by decide, by decide⟩
  intro n l1 l2 t h
  obtain ⟨-, ⟨c, hc, hcl⟩, -, -, -⟩ := tleNewLines_ok_inv h
  by_cases hu : c = 'U'
  · subst hu
    rw [hcl, if_pos rfl]
    constructor
    · exact ⟨fun _ => hc, fun _ => rfl⟩
    · constructor
      · intro hO; exact absurd hO (by intro h2; exact Classification.noConfusion h2)
      · intro hne; exact absurd hc hne
  · rw [hcl, if_neg hu]
    constructor
    · constructor
      · intro hO; exact absurd hO (by intro h2; exact Classification.noConfusion h2)
      · intro hsome
        rw [hc] at hsome
        injection hsome with h2
        exact absurd h2 hu
    · constructor
      · intro _ hsome
        rw [hc] at hsome
        injection hsome with h2
        exact absurd h2 hu
      · intro _; rfl

/-- Witness for C10: moving the U to byte index 8 makes the parser return
Unclassified. -/
theorem C10_classification_witness :
    ∃ t, tleNewLines molniyaName molUL1 molniyaL2 = .ok t ∧
      t.classification = Classification.Unclassified := by
  obtain ⟨t, hE⟩ := Fail_intro (r := tleNewLines molniyaName molUL1 molniyaL2) (by decide)
  exact ⟨t, hE, ((C10_classification.1 _ _ _ t hE).1).mpr (by decide)⟩

theorem digit_ne {c x : Char} (hd : c.isDigit = true) (hx : x.isDigit = false) :
    ¬c = x := by
  intro h
  rw [h] at hd
  rw [hd] at hx
  exact Bool.noConfusion hx

theorem allDigits_mem {m : List Char} (hm : allDigits m = true) :
    ∀ c ∈ m, c.isDigit = true := by
  intro c hc
  exact List.all_eq_true.mp hm c hc

theorem findIdxO_cons (p : Char → Bool) (c : Char) (cs : List Char) :
    findIdxO p (c :: cs) = if p c then some 0 else (findIdxO p cs).map (· + 1) := rfl

theorem findIdxO_none {p : Char → Bool} {l : List Char}
    (h : ∀ c ∈ l, p c = false) : findIdxO p l = none := by
  induction l with
  | nil => rfl
  | cons c cs ih =>
    rw [findIdxO_cons, if_neg (by rw [h c (List.mem_cons_self c cs)]; simp),
      ih fun x hx => h x (List.mem_cons_of_mem c hx)]
    rfl

theorem findIdxO_append {p : Char → Bool} {xs : List Char} (ys : List Char)
    (h : findIdxO p xs = none) :
    findIdxO p (xs ++ ys) = (findIdxO p ys).map (· + xs.length) := by
  induction xs with
  | nil => simp
  | cons c cs ih =>
    rw [List.cons_append, findIdxO_cons]
    rw [findIdxO_cons] at h
    by_cases hp : p c
    · rw [if_pos hp] at h
      exact absurd h (by simp)
    · rw [if_neg hp] at h
      have hcs : findIdxO p cs = none := by
        cases hfc : findIdxO p cs with
        | none => rfl
        | some k => rw [hfc] at h; exact absurd h (by simp)
      rw [if_neg hp, ih hcs]
      cases hfy : findIdxO p ys with
      | none => rfl
      | some k => simp [List.length_cons, Nat.add_assoc]

theorem listReplaceAux_nil (pat rep : List Char) (fuel : Nat) :
    listReplaceAux pat rep fuel [] = [] := by
  cases fuel <;> rfl

theorem listReplaceAux_cons (pat rep : List Char) (f : Nat) (c : Char) (cs : List Char) :
    listReplaceAux pat rep (f + 1) (c :: cs) =
      if pat ≠ [] ∧ pat.isPrefixOf (c :: cs) then
        rep ++ listReplaceAux pat rep f ((c :: cs).drop pat.length)
      else c :: listReplaceAux pat rep f cs := rfl

theorem listReplaceAux_id {p0 : Char} {pr rep zs : List Char}
    (h : ∀ c ∈ zs, ¬p0 = c) : ∀ fuel, listReplaceAux (p0 :: pr) rep fuel zs = zs := by
  induction zs with
  | nil => intro fuel; exact listReplaceAux_nil _ _ _
  | cons c cs ih =>
    intro fuel
    cases fuel with
    | zero => rfl
    | succ f =>
      rw [listReplaceAux_cons]
      have hb : (p0 == c) = false :=
        beq_eq_false_iff_ne.mpr (h c (List.mem_cons_self c cs))
      rw [if_neg (by intro hco; have h2 := hco.2; simp [List.isPrefixOf, hb] at h2),
        ih (fun x hx => h x (List.mem_cons_of_mem c hx)) f]

theorem listReplace_id {p0 : Char} {pr rep zs : List Char}
    (h : ∀ c ∈ zs, ¬p0 = c) : listReplace (p0 :: pr) rep zs = zs :=
  listReplaceAux_id h _

theorem listReplaceAux_plus_end {xs : List Char} (h : ∀ c ∈ xs, ¬('+' : Char) = c) :
    ∀ fuel, xs.length + 2 ≤ fuel →
      listReplaceAux ['+', '0'] ['e', '+', '0'] fuel (xs ++ ['+', '0']) =
        xs ++ ['e', '+', '0'] := by
  induction xs with
  | nil =>
    intro fuel hf
    obtain ⟨f, rfl⟩ : ∃ f, fuel = f + 1 := ⟨fuel - 1, by omega⟩
    rw [List.nil_append, listReplaceAux_cons, if_pos ⟨by simp, by decide⟩]
    simp [listReplaceAux_nil]
  | cons c cs ih =>
    intro fuel hf
    obtain ⟨f, rfl⟩ : ∃ f, fuel = f + 1 := ⟨fuel - 1, by omega⟩
    rw [List.cons_append, listReplaceAux_cons]
    have hb : (('+' : Char) == c) = false :=
      beq_eq_false_iff_ne.mpr (h c (List.mem_cons_self c cs))
    rw [if_neg (by intro hco; have h2 := hco.2; simp [List.isPrefixOf, hb] at h2)]
    rw [ih (fun x hx => h x (List.mem_cons_of_mem c hx)) f (by simp at hf ⊢; omega)]
    rfl

theorem listReplace_plus_end {xs : List Char} (h : ∀ c ∈ xs, ¬('+' : Char) = c) :
    listReplace ['+', '0'] ['e', '+', '0'] (xs ++ ['+', '0']) = xs ++ ['e', '+', '0'] := by
  unfold listReplace
  exact listReplaceAux_plus_end h _ (by simp)

theorem digits_no_dash {m : List Char} (hm : allDigits m = true) :
    findIdxO (· == '-') m = none :=
  findIdxO_none fun c hc =>
    beq_eq_false_iff_ne.mpr (digit_ne (allDigits_mem hm c hc) (by decide))

theorem digits_no_dot {m : List Char} (hm : allDigits m = true) :
    findIdxO (· == '.') m = none :=
  findIdxO_none fun c hc =>
    beq_eq_false_iff_ne.mpr (digit_ne (allDigits_mem hm c hc) (by decide))

theorem digits_no_e {m : List Char} (hm : allDigits m = true) :
    findIdxO (fun c => c == 'e' || c == 'E') m = none :=
  findIdxO_none fun c hc => by
    rw [beq_eq_false_iff_ne.mpr
        (digit_ne (allDigits_mem hm c hc) (by decide) : ¬c = 'e'),
      beq_eq_false_iff_ne.mpr
        (digit_ne (allDigits_mem hm c hc) (by decide) : ¬c = 'E')]
    rfl

theorem digits_no_plus {m : List Char} (hm : allDigits m = true) :
    ∀ c ∈ m, ¬('+' : Char) = c := fun c hc =>
  Ne.symm (digit_ne (allDigits_mem hm c hc) (by decide))

theorem signSplit_other {c : Char} (h1 : ¬c = '+') (h2 : ¬c = '-') (cs : List Char) :
    signSplit (c :: cs) = (1, c :: cs) := by
  unfold signSplit
  dsimp only
  rw [if_neg h1, if_neg h2]

theorem signSplit_digit {c : Char} (hc : c.isDigit = true) (cs : List Char) :
    signSplit (c :: cs) = (1, c :: cs) :=
  signSplit_other (digit_ne hc (by decide)) (digit_ne hc (by decide)) cs

theorem signSplit_dash (cs : List Char) : signSplit ('-' :: cs) = (-1, cs) := by
  unfold signSplit
  dsimp only
  rw [if_neg (by decide), if_pos rfl]

theorem signSplit_plus (cs : List Char) : signSplit ('+' :: cs) = (1, cs) := by
  unfold signSplit
  dsimp only
  rw [if_pos rfl]

theorem digitsToNat_single (d : Char) : digitsToNat [d] = d.toNat - 48 := by
  simp [digitsToNat]

theorem parseIntRaw_dash_single (d : Char) (hd : d.isDigit = true) :
    parseIntRaw ['-', d] = some (-((d.toNat - 48 : Nat) : Int)) := by
  unfold parseIntRaw
  rw [signSplit_dash]
  dsimp only
  rw [if_neg (by simp), if_pos (by simp [allDigits, hd]), digitsToNat_single]
  norm_num

theorem parseIntRaw_plus_single (d : Char) (hd : d.isDigit = true) :
    parseIntRaw ['+', d] = some ((d.toNat - 48 : Nat) : Int) := by
  unfold parseIntRaw
  rw [signSplit_plus]
  dsimp only
  rw [if_neg (by simp), if_pos (by simp [allDigits, hd]), digitsToNat_single]
  norm_num

theorem parseMantissa_digits {m : List Char} (hm : allDigits m = true) (hne : m ≠ []) :
    parseMantissa m = some (mkRat (digitsToNat m) 1) := by
  unfold parseMantissa
  rw [digits_no_dot hm]
  have hc : (!m.isEmpty && allDigits m) = true := by
    rw [hm]
    simp [List.isEmpty_iff, hne]
  rw [if_pos hc]

theorem parseMantissa_zero_dot {m : List Char} (hm : allDigits m = true) :
    parseMantissa ('0' :: '.' :: m) =
      some (mkRat (digitsToNat m) (10 ^ m.length)) := by
  unfold parseMantissa
  have hf : findIdxO (· == '.') ('0' :: '.' :: m) = some 1 := by
    rw [findIdxO_cons, if_neg (by decide), findIdxO_cons, if_pos (by decide)]
    rfl
  rw [hf]
  dsimp only
  rw [show List.take 1 ('0' :: '.' :: m) = ['0'] from rfl,
    show List.drop (1 + 1) ('0' :: '.' :: m) = m from rfl]
  rw [if_pos (by rw [hm]; rfl)]
  have h0 : digitsToNat ['0'] = 0 := by decide
  rw [h0]
  norm_num

theorem epred_zero_dot {m : List Char} (hm : allDigits m = true) :
    findIdxO (fun c => c == 'e' || c == 'E') ('0' :: '.' :: m) = none := by
  rw [findIdxO_cons, if_neg (by decide), findIdxO_cons, if_neg (by decide), digits_no_e hm]
  rfl

theorem epred_zero_dot_exp {m : List Char} (hm : allDigits m = true) (tail : List Char) :
    findIdxO (fun c => c == 'e' || c == 'E') ('0' :: '.' :: (m ++ 'e' :: tail)) =
      some (m.length + 2) := by
  rw [findIdxO_cons, if_neg (by decide), findIdxO_cons, if_neg (by decide),
    findIdxO_append _ (digits_no_e hm), findIdxO_cons, if_pos (by decide)]
  simp [Option.map]

theorem take_zero_dot_exp (m tail : List Char) :
    (('0' :: '.' :: (m ++ 'e' :: tail)) : List Char).take (m.length + 2) =
      '0' :: '.' :: m := by
  rw [show m.length + 2 = (m.length + 1) + 1 from rfl, List.take_succ_cons,
    List.take_succ_cons, List.take_left]

theorem drop_zero_dot_exp (m tail : List Char) :
    (('0' :: '.' :: (m ++ 'e' :: tail)) : List Char).drop (m.length + 3) = tail := by
  rw [show ((('0' :: '.' :: (m ++ 'e' :: tail)) : List Char).drop (m.length + 3)) =
      ((m ++ 'e' :: tail).drop (m.length + 1)) from rfl]
  rw [← List.drop_drop 1 m.length ((m ++ 'e' :: tail) : List Char), List.drop_left]
  rfl

theorem parseF_zero_dot {m : List Char} (hm : allDigits m = true) :
    parseF ('0' :: '.' :: m) =
      some (qMulInt (mkRat (digitsToNat m) (10 ^ m.length)) 1) := by
  unfold parseF
  rw [signSplit_other (by decide) (by decide)]
  dsimp only
  rw [if_neg (by simp), epred_zero_dot hm]
  dsimp only
  rw [parseMantissa_zero_dot hm]
  rfl

theorem parseF_zero_dot_exp {m : List Char} (hm : allDigits m = true)
    {x d : Char} {ev : Int} (hx : parseIntRaw [x, d] = some ev) :
    parseF ('0' :: '.' :: (m ++ 'e' :: x :: [d])) =
      some (qScale10 (qMulInt (mkRat (digitsToNat m) (10 ^ m.length)) 1) ev) := by
  unfold parseF
  rw [signSplit_other (by decide) (by decide)]
  dsimp only
  rw [if_neg (by simp), epred_zero_dot_exp hm]
  dsimp only
  rw [take_zero_dot_exp, show m.length + 2 + 1 = m.length + 3 from rfl,
    drop_zero_dot_exp, parseMantissa_zero_dot hm, hx]

theorem parseF_dash_zero_dot {m : List Char} (hm : allDigits m = true) :
    parseF ('-' :: '0' :: '.' :: m) =
      some (qMulInt (mkRat (digitsToNat m) (10 ^ m.length)) (-1)) := by
  unfold parseF
  rw [signSplit_dash]
  dsimp only
  rw [if_neg (by simp), epred_zero_dot hm]
  dsimp only
  rw [parseMantissa_zero_dot hm]
  rfl

theorem parseF_dash_zero_dot_exp {m : List Char} (hm : allDigits m = true)
    {x d : Char} {ev : Int} (hx : parseIntRaw [x, d] = some ev) :
    parseF ('-' :: '0' :: '.' :: (m ++ 'e' :: x :: [d])) =
      some (qScale10 (qMulInt (mkRat (digitsToNat m) (10 ^ m.length)) (-1)) ev) := by
  unfold parseF
  rw [signSplit_dash]
  dsimp only
  rw [if_neg (by simp), epred_zero_dot_exp hm]
  dsimp only
  rw [take_zero_dot_exp, show m.length + 2 + 1 = m.length + 3 from rfl,
    drop_zero_dot_exp, parseMantissa_zero_dot hm, hx]

theorem not_prefix_dash_dot {c : Char} (hc : c.isDigit = true) (cs : List Char) :
    (['-', '.'] : List Char).isPrefixOf (c :: cs) = false := by
  have hb : (('-' : Char) == c) = false :=
    beq_eq_false_iff_ne.mpr (Ne.symm (digit_ne hc (by decide)))
  simp [List.isPrefixOf, hb]

theorem not_prefix_dot {c : Char} (hc : c.isDigit = true) (cs : List Char) :
    (['.'] : List Char).isPrefixOf (c :: cs) = false := by
  have hb : (('.' : Char) == c) = false :=
    beq_eq_false_iff_ne.mpr (Ne.symm (digit_ne hc (by decide)))
  simp [List.isPrefixOf, hb]

theorem fix_string_exp_dash {m : List Char} (hm : allDigits m = true)
    (hne : m ≠ []) (d : Char) :
    fix_string (m ++ ['-', d]) = some ('0' :: '.' :: (m ++ 'e' :: '-' :: [d])) := by
  obtain ⟨c, cs, hl⟩ := List.exists_cons_of_ne_nil hne
  subst hl
  have hc : c.isDigit = true := allDigits_mem hm c (List.mem_cons_self c cs)
  unfold fix_string
  rw [List.cons_append, if_neg (by rw [not_prefix_dash_dot hc]; simp),
    if_neg (by rw [not_prefix_dot hc]; simp)]
  have hfi : findIdxO (· == '-') (c :: (cs ++ ['-', d])) = some (cs.length + 1) := by
    rw [← List.cons_append, findIdxO_append _ (digits_no_dash hm), findIdxO_cons,
      if_pos (by decide)]
    simp [Option.map]
  rw [hfi]
  split
  · next heq =>
    exfalso
    have h0 := Option.some.inj heq
    omega
  · next heq =>
    have hlen : (c :: (cs ++ ['-', d])).length - 2 = (c :: cs).length := by
      simp
    rw [hlen, ← List.cons_append, List.take_left, List.drop_left]
    rfl
  · next heq => exact absurd heq (by simp)

theorem fix_string_dash_mantissa {m : List Char} (hm : allDigits m = true)
    (hne : m ≠ []) (x d : Char) :
    fix_string ('-' :: (m ++ [x, d])) =
      some ('-' :: '0' :: '.' :: (m ++ 'e' :: x :: [d])) := by
  obtain ⟨c, cs, hl⟩ := List.exists_cons_of_ne_nil hne
  subst hl
  have hc : c.isDigit = true := allDigits_mem hm c (List.mem_cons_self c cs)
  have hb : (('.' : Char) == c) = false :=
    beq_eq_false_iff_ne.mpr (Ne.symm (digit_ne hc (by decide)))
  unfold fix_string
  rw [List.cons_append, if_neg (by simp [List.isPrefixOf, hb]),
    if_neg (by simp [List.isPrefixOf]),
    show findIdxO (· == '-') ('-' :: (c :: (cs ++ [x, d]))) = some 0 from
      by rw [findIdxO_cons, if_pos (by decide)]]
  dsimp only
  rw [if_pos (by simp)]
  have hlen3 : ('-' :: (c :: (cs ++ [x, d]))).length - 3 = (c :: cs).length := by
    simp
  have hlen2 : ('-' :: (c :: (cs ++ [x, d]))).length - 2 = (c :: cs).length + 1 := by
    simp
  rw [hlen3, hlen2,
    show ((('-' :: (c :: (cs ++ [x, d]))) : List Char).drop 1) = (c :: (cs ++ [x, d])) from rfl,
    ← List.cons_append, List.take_left,
    show ((('-' :: ((c :: cs : List Char) ++ [x, d])) : List Char).drop
        ((c :: cs : List Char).length + 1)) =
      (((c :: cs : List Char) ++ [x, d]).drop (c :: cs : List Char).length) from rfl,
    List.drop_left]
  rfl

theorem no_plus_zero_dot {m : List Char} (hm : allDigits m = true) :
    ∀ y ∈ ('0' :: '.' :: m : List Char), ¬('+' : Char) = y := by
  intro y hy
  rcases List.mem_cons.mp hy with rfl | hy2
  · decide
  rcases List.mem_cons.mp hy2 with rfl | hy3
  · decide
  · exact digits_no_plus hm y hy3

theorem fix_string_digits {m : List Char} (hm : allDigits m = true) (hne : m ≠ []) :
    fix_string m = some ('0' :: '.' :: m) := by
  obtain ⟨c, cs, hl⟩ := List.exists_cons_of_ne_nil hne
  subst hl
  have hc : c.isDigit = true := allDigits_mem hm c (List.mem_cons_self c cs)
  unfold fix_string
  rw [if_neg (by rw [not_prefix_dash_dot hc]; simp),
    if_neg (by rw [not_prefix_dot hc]; simp), digits_no_dash hm]
  dsimp only
  rw [listReplace_id (no_plus_zero_dot hm)]

theorem fix_string_plus_zero {m : List Char} (hm : allDigits m = true) (hne : m ≠ []) :
    fix_string (m ++ ['+', '0']) = some ('0' :: '.' :: (m ++ ['e', '+', '0'])) := by
  obtain ⟨c, cs, hl⟩ := List.exists_cons_of_ne_nil hne
  subst hl
  have hc : c.isDigit = true := allDigits_mem hm c (List.mem_cons_self c cs)
  unfold fix_string
  rw [List.cons_append, if_neg (by rw [not_prefix_dash_dot hc]; simp),
    if_neg (by rw [not_prefix_dot hc]; simp)]
  have hfi : findIdxO (· == '-') (c :: (cs ++ ['+', '0'])) = none := by
    rw [← List.cons_append, findIdxO_append _ (digits_no_dash hm),
      show findIdxO (· == '-') (['+', '0'] : List Char) = none from by decide]
    rfl
  rw [hfi]
  dsimp only
  rw [show ('0' :: '.' :: (c :: (cs ++ ['+', '0'])) : List Char) =
      (('0' :: '.' :: c :: cs : List Char) ++ ['+', '0']) from rfl,
    listReplace_plus_end (no_plus_zero_dot hm)]
  rfl

theorem fix_string_dot {m : List Char} :
    fix_string ('.' :: m) = some ('0' :: '.' :: m) := by
  unfold fix_string
  rw [if_neg (by simp [List.isPrefixOf]), if_pos (by simp [List.isPrefixOf])]

theorem fix_string_dash_dot {m : List Char} (hm : allDigits m = true) :
    fix_string ('-' :: '.' :: m) = some ('-' :: '0' :: '.' :: m) := by
  unfold fix_string
  rw [if_pos (by simp [List.isPrefixOf])]
  unfold listReplace
  rw [show (('-' :: '.' :: m : List Char)).length = m.length + 2 from by simp,
    listReplaceAux_cons, if_pos ⟨by simp, by simp [List.isPrefixOf]⟩,
    show (('-' :: '.' :: m : List Char)).drop (['-', '.'] : List Char).length = m from rfl,
    listReplaceAux_id (fun y hy => Ne.symm (digit_ne (allDigits_mem hm y hy) (by decide)))]
  rfl

/-- C3 counterexample: the claim says a compact field's exponent sign is
handled for both signs and every exponent digit, but for an unsigned mantissa
with a plus-signed nonzero exponent fix_string emits 0.12345+3 (its replace
only rewrites the exponent text +0), which is not parseable as a float, so the
decoding of 12345+3 fails instead of producing 0.12345e3. -/
theorem C3_counterexample :
    fix_string (("12345+3").toList) = some (("0.12345+3").toList) ∧
    parseF (("0.12345+3").toList) = none ∧
    decodeO (("12345+3").toList) = none :=
  ⟨by decide, by decide, by decide⟩

/-- C3 (amended): the fix_string decoding reconstructs 0.mantissa times ten to
the signed exponent, with a leading minus flipping the mantissa sign and a
mantissa starting with a dot given a leading zero, for: a minus-signed
exponent with any mantissa sign, a plus-signed exponent when the mantissa is
negative, the exponent +0, and fields with no exponent; an unsigned mantissa
with a plus-signed nonzero exponent digit is the one shape that fails (see the
counterexample). -/
theorem C3_compact_decoding (m : List Char) (d : Char)
    (hm : allDigits m = true) (hne : m ≠ []) (hd : d.isDigit = true) :
    decodeO (m ++ ['-', d]) =
      some ((digitsToNat m : ℚ) / 10 ^ m.length *
        (10 : ℚ) ^ (-((d.toNat - 48 : ℕ) : ℤ))) ∧
    decodeO ('-' :: (m ++ ['-', d])) =
      some (-((digitsToNat m : ℚ) / 10 ^ m.length) *
        (10 : ℚ) ^ (-((d.toNat - 48 : ℕ) : ℤ))) ∧
    decodeO ('-' :: (m ++ ['+', d])) =
      some (-((digitsToNat m : ℚ) / 10 ^ m.length) *
        (10 : ℚ) ^ (((d.toNat - 48 : ℕ) : ℤ))) ∧
    decodeO m = some ((digitsToNat m : ℚ) / 10 ^ m.length) ∧
    decodeO (m ++ ['+', '0']) = some ((digitsToNat m : ℚ) / 10 ^ m.length) ∧
    decodeO ('.' :: m) = some ((digitsToNat m : ℚ) / 10 ^ m.length) ∧
    decodeO ('-' :: '.' :: m) = some (-((digitsToNat m : ℚ) / 10 ^ m.length)) := by
  refine ⟨?_, ?_, ?_, ?_, ?_, ?_, ?_⟩
  · unfold decodeO
    rw [fix_string_exp_dash hm hne d]
    dsimp only
    rw [parseF_zero_dot_exp hm (parseIntRaw_dash_single d hd)]
    congr 1
    rw [qScale10_eq, qMulInt_eq, mkRat_pow10]
    push_cast
    ring
  · unfold decodeO
    rw [fix_string_dash_mantissa hm hne '-' d]
    dsimp only
    rw [parseF_dash_zero_dot_exp hm (parseIntRaw_dash_single d hd)]
    congr 1
    rw [qScale10_eq, qMulInt_eq, mkRat_pow10]
    push_cast
    ring
  · unfold decodeO
    rw [fix_string_dash_mantissa hm hne '+' d]
    dsimp only
    rw [parseF_dash_zero_dot_exp hm (parseIntRaw_plus_single d hd)]
    congr 1
    rw [qScale10_eq, qMulInt_eq, mkRat_pow10]
    push_cast
    ring
  · unfold decodeO
    rw [fix_string_digits hm hne]
    dsimp only
    rw [parseF_zero_dot hm]
    congr 1
    rw [qMulInt_eq, mkRat_pow10]
    push_cast
    ring
  · unfold decodeO
    rw [fix_string_plus_zero hm hne]
    dsimp only
    rw [parseF_zero_dot_exp hm (parseIntRaw_plus_single '0' (by decide))]
    congr 1
    rw [qScale10_eq, qMulInt_eq, mkRat_pow10,
      show ((('0' : Char).toNat - 48 : ℕ) : ℤ) = 0 from by decide, zpow_zero]
    push_cast
    ring
  · unfold decodeO
    rw [fix_string_dot]
    dsimp only
    rw [parseF_zero_dot hm]
    congr 1
    rw [qMulInt_eq, mkRat_pow10]
    push_cast
    ring
  · unfold decodeO
    rw [fix_string_dash_dot hm]
    dsimp only
    rw [parseF_dash_zero_dot hm]
    congr 1
    rw [qMulInt_eq, mkRat_pow10]
    push_cast
    ring

/-- Witness for C3: the decoding of the concrete field 12345-3 from the claim,
which evaluates to 0.12345e-3. -/
theorem C3_compact_decoding_witness :
    decodeO ((("12345").toList) ++ ['-', '3']) =
      some ((digitsToNat (("12345").toList) : ℚ) / 10 ^ (("12345").toList).length *
        (10 : ℚ) ^ (-((('3' : Char).toNat - 48 : ℕ) : ℤ))) :=
  (C3_compact_decoding (("12345").toList) '3' (by decide) (by decide) (by decide)).1

theorem period_pos {mm : ℝ} (hmm : 0 < mm) : 0 < period_of_revolution mm := by
  unfold period_of_revolution
  positivity

theorem ideal_cube {mu mm : ℝ} (hmu : 0 < mu) (hmm : 0 < mm) :
    (semimajor_axis_ideal mu mm) ^ (3 : ℕ) =
      mu * (period_of_revolution mm / (2 * Real.pi)) ^ 2 := by
  have hπ := Real.pi_pos
  have hbase : 0 ≤ mu * (period_of_revolution mm / (2 * Real.pi)) ^ 2 := by positivity
  unfold semimajor_axis_ideal
  rw [← Real.rpow_natCast
      ((mu * (period_of_revolution mm / (2 * Real.pi)) ^ 2) ^ ((1 : ℝ) / 3)) 3,
    ← Real.rpow_mul hbase]
  norm_num

theorem ideal_pos {mu mm : ℝ} (hmu : 0 < mu) (hmm : 0 < mm) :
    0 < semimajor_axis_ideal mu mm := by
  have hπ := Real.pi_pos
  have hp := period_pos hmm
  unfold semimajor_axis_ideal
  exact Real.rpow_pos_of_pos (by positivity) _

/-- With J2 = 0 the perturbed mean motion at the ideal axis equals the catalog
mean motion exactly, so the Newton seed is already a root and the solver
returns the ideal axis unchanged. -/
theorem approx_j2_zero {b : RBody} (ecc incl : ℝ) {mm : ℝ} (hj : b.j2 = 0)
    (hmu : 0 < b.mu) (hmm : 0 < mm) :
    semimajor_axis_approx b ecc incl mm = some (semimajor_axis_ideal b.mu mm) := by
  have hπ := Real.pi_pos
  have hp := period_pos hmm
  have hres : n_of_a b ecc incl (semimajor_axis_ideal b.mu mm) - n_norad mm = 0 := by
    unfold n_of_a n_norad
    rw [hj]
    have h1 : (1 : ℝ) + 1.5 * 0 * (b.radius / semimajor_axis_ideal b.mu mm) ^ 2 *
        j2_tmp ecc incl = 1 := by ring
    rw [h1, mul_one, ideal_cube hmu hmm,
      show b.mu / (b.mu * (period_of_revolution mm / (2 * Real.pi)) ^ 2) =
        (2 * Real.pi / period_of_revolution mm) ^ 2 from by field_simp; ring,
      Real.sqrt_sq (by positivity)]
    ring
  unfold semimajor_axis_approx find_root_newton_raphson
  apply newtonGo_of_root
  rw [hres]
  norm_num

theorem cbody_ideal : semimajor_axis_ideal cbody.mu 86400 = 1 := by
  have hπ : Real.pi ≠ 0 := Real.pi_ne_zero
  unfold semimajor_axis_ideal period_of_revolution
  rw [show cbody.mu = 4 * Real.pi ^ 2 from rfl,
    show (4 * Real.pi ^ 2) * ((86400 / 86400 : ℝ) / (2 * Real.pi)) ^ 2 = 1 from
      by field_simp; ring]
  exact Real.one_rpow _

theorem j2_tmp_zero_zero : j2_tmp 0 0 = 1 := by
  unfold j2_tmp
  rw [show (0 : ℝ) * Real.pi / 180 = 0 from by ring, Real.sin_zero]
  norm_num [Real.one_rpow]

/-- C6 counterexample: at eccentricity 0 and inclination 0 the J2 correction
term does not vanish.  With the toy body (mu = 4 pi^2, R = 1, J2 = 1) and mean
motion 86400 rev/day the ideal axis is exactly 1, yet any value the refined
solver can return lies more than 0.1 from the ideal axis: every candidate
within 0.1 of the ideal has residual n(a) - n_norad above 4, far outside the
1e-14 tolerance, so the refined axis does not equal the ideal one to within
numerical tolerance. -/
theorem C6_counterexample :
    ¬∃ a, semimajor_axis_approx cbody 0 0 86400 = some a ∧
        |a - semimajor_axis_ideal cbody.mu 86400| ≤ 1 / 10 := by
  rintro ⟨a, hsome, hnear⟩
  unfold semimajor_axis_approx find_root_newton_raphson at hsome
  obtain ⟨k, -, -, hres⟩ := newtonGo_some hsome
  rw [cbody_ideal] at hnear
  have hb := abs_le.mp hnear
  have ha1 : (9 : ℝ) / 10 ≤ a := by linarith [hb.1]
  have ha2 : a ≤ 11 / 10 := by linarith [hb.2]
  have hapos : (0 : ℝ) < a := by linarith
  have hπ : (3.141592 : ℝ) < Real.pi := Real.pi_gt_3141592
  have hπ2 : Real.pi < 3.15 := Real.pi_lt_315
  have hval : n_of_a cbody 0 0 a - n_norad 86400 ≥ 4 := by
    unfold n_of_a n_norad period_of_revolution
    rw [show cbody.mu = 4 * Real.pi ^ 2 from rfl, show cbody.j2 = 1 from rfl,
      show cbody.radius = 1 from rfl, j2_tmp_zero_zero]
    have ha3 : a ^ 3 ≤ 1331 / 1000 := by
      have h := pow_le_pow_left (le_of_lt hapos) ha2 3
      norm_num at h
      linarith
    have hsq : Real.sqrt (4 * Real.pi ^ 2 / a ^ 3) ≥ 5 := by
      rw [ge_iff_le, show (5 : ℝ) = Real.sqrt 25 from by
        rw [show (25 : ℝ) = 5 ^ 2 from by norm_num, Real.sqrt_sq (by norm_num)]]
      apply Real.sqrt_le_sqrt
      rw [le_div_iff (by positivity)]
      nlinarith
    have h1a : (10 : ℝ) / 11 ≤ 1 / a := by
      rw [le_div_iff hapos]
      linarith
    have hfac : (1 : ℝ) + 1.5 * 1 * (1 / a) ^ 2 * 1 ≥ 22 / 10 := by
      nlinarith [h1a, sq_nonneg (1 / a)]
    have hnn : 2 * Real.pi / ((86400 : ℝ) / 86400) ≤ 63 / 10 := by
      rw [show (86400 : ℝ) / 86400 = 1 from by norm_num, div_one]
      nlinarith
    have hprod : Real.sqrt (4 * Real.pi ^ 2 / a ^ 3) *
        ((1 : ℝ) + 1.5 * 1 * (1 / a) ^ 2 * 1) ≥ 11 := by
      nlinarith [hsq, hfac]
    linarith
  have habs : |n_of_a cbody 0 0 a - n_norad 86400| < 1e-14 := by simpa using hres
  have hle := le_abs_self (n_of_a cbody 0 0 a - n_norad 86400)
  have : (1e-14 : ℝ) > 4 := by linarith [abs_lt.mp habs]
  norm_num at this

/-- C6 (amended): the refined semi-major axis equals the ideal one exactly
when the body's J2 coefficient vanishes — the correction term is then
identically zero and the Newton seed is an exact root; at e = 0 and i = 0
with J2 nonzero the correction term 1.5 J2 (R/a)^2 does not vanish (it is
zero at the critical inclination sin^2 i = 2/3 instead) and the refined axis
differs from the ideal one (see the counterexample). -/
theorem C6_j2_zero_exact (b : RBody) (ecc incl mm : ℝ) (hj : b.j2 = 0)
    (hmu : 0 < b.mu) (hmm : 0 < mm) :
    semimajor_axis_approx b ecc incl mm = some (semimajor_axis_ideal b.mu mm) :=
  approx_j2_zero ecc incl hj hmu hmm

/-- Witness for C6: the zero-J2 body with mean motion 86400 rev/day. -/
theorem C6_j2_zero_exact_witness :
    zbody.j2 = 0 ∧ (0 : ℝ) < zbody.mu ∧ (0 : ℝ) < 86400 ∧
    semimajor_axis_approx zbody 0 0 86400 = some (semimajor_axis_ideal zbody.mu 86400) :=
  ⟨rfl, show (0 : ℝ) < zbody.mu from by rw [show zbody.mu = 1 from rfl]; norm_num,
    by norm_num,
    C6_j2_zero_exact zbody 0 0 86400 rfl
      (show (0 : ℝ) < zbody.mu from by rw [show zbody.mu = 1 from rfl]; norm_num)
      (by norm_num)⟩

/-- C5: semimajor_axis_approx returns some a only when a is reached from the
ideal-axis seed by at most 50 Newton-Raphson steps on n(a) - n_norad (the
J2-perturbed mean motion minus the catalog mean motion in rad/s) and the
residual at a is below the configured 1e-14 tolerance; a non-converged solve
yields none by construction of the spec-modelled solver, never a default. -/
theorem C5_approx_newton_sound (b : RBody) (ecc incl mm a : ℝ)
    (h : semimajor_axis_approx b ecc incl mm = some a) :
    ∃ k, k ≤ 50 ∧
      a = (newtonStep (fun t => n_of_a b ecc incl t - n_norad mm)
        (n_deriv_of_a b ecc incl))^[k] (semimajor_axis_ideal b.mu mm) ∧
      |n_of_a b ecc incl a - n_norad mm| < 1e-14 := by
  unfold semimajor_axis_approx find_root_newton_raphson at h
  obtain ⟨k, hk, hx, hresid⟩ := newtonGo_some h
  exact ⟨k, by omega, hx, by simpa using hresid⟩

/-- Witness for C5: on the zero-J2 body the solve converges (to the ideal
axis), so the soundness conclusion holds there. -/
theorem C5_approx_newton_sound_witness :
    semimajor_axis_approx zbody 0 0 86400 = some (semimajor_axis_ideal zbody.mu 86400) ∧
    ∃ k, k ≤ 50 ∧
      semimajor_axis_ideal zbody.mu 86400 =
        (newtonStep (fun t => n_of_a zbody 0 0 t - n_norad 86400)
          (n_deriv_of_a zbody 0 0))^[k] (semimajor_axis_ideal zbody.mu 86400) ∧
      |n_of_a zbody 0 0 (semimajor_axis_ideal zbody.mu 86400) - n_norad 86400| < 1e-14 := by
  have hsome := approx_j2_zero (b := zbody) 0 0 rfl
    (show (0 : ℝ) < zbody.mu from by rw [show zbody.mu = 1 from rfl]; norm_num)
    (show (0 : ℝ) < (86400 : ℝ) from by norm_num)
  exact ⟨hsome, C5_approx_newton_sound zbody 0 0 86400 _ hsome⟩

/-- C8: the ISS fixture parses with valid true and the literal field values
(mean motion 15.74622749, eccentricity 0.0008835, inclination 51.6448), but
distance_perigee computed from the ideal axis with EARTH (mu = 398600, in
km^3/s^2) is below 7200 — kilometre scale — so it cannot match the source
test's asserted literal 6717901.720 within any floating-point tolerance: the
test's own equality assertion fails on its fixture. -/
theorem C8_distance_perigee_units :
    tleField (fun t => t.mean_motion) (tleNew issStr) = some (mkRat 1574622749 100000000) ∧
    tleField (fun t => t.eccentricity) (tleNew issStr) = some (mkRat 8835 10000000) ∧
    tleField (fun t => t.inclination) (tleNew issStr) = some (mkRat 516448 10000) ∧
    tleField (fun t => t.valid) (tleNew issStr) = some true ∧
    distance_perigee EARTH.mu 15.74622749 0.0008835 < 7200 := by
  refine ⟨by decide, by decide, by decide, by decide, ?_⟩
  unfold distance_perigee
  have hπ : (3.141592 : ℝ) < Real.pi := Real.pi_gt_3141592
  have haid : semimajor_axis_ideal EARTH.mu 15.74622749 < 6800 := by
    unfold semimajor_axis_ideal period_of_revolution
    rw [show EARTH.mu = (398600 : ℝ) from rfl]
    have hY : (0 : ℝ) < 2 * Real.pi := by positivity
    have h3 : (86400 : ℝ) / 15.74622749 / (2 * Real.pi) < 874 := by
      rw [div_lt_iff hY]
      have h1 : (86400 : ℝ) / 15.74622749 < 5488 := by norm_num
      nlinarith
    have h4 : (0 : ℝ) ≤ (86400 : ℝ) / 15.74622749 / (2 * Real.pi) := by positivity
    have hX : (398600 : ℝ) * ((86400 / 15.74622749) / (2 * Real.pi)) ^ 2 <
        (6800 : ℝ) ^ (3 : ℕ) := by nlinarith
    calc ((398600 : ℝ) * ((86400 / 15.74622749) / (2 * Real.pi)) ^ 2) ^ ((1 : ℝ) / 3)
        < ((6800 : ℝ) ^ (3 : ℕ)) ^ ((1 : ℝ) / 3) :=
          Real.rpow_lt_rpow (by positivity) hX (by norm_num)
      _ = 6800 := by
          rw [← Real.rpow_natCast (6800 : ℝ) 3, ← Real.rpow_mul (by norm_num)]
          norm_num
  have hnn : (0 : ℝ) ≤ semimajor_axis_ideal EARTH.mu 15.74622749 := by
    unfold semimajor_axis_ideal
    rw [show EARTH.mu = (398600 : ℝ) from rfl]
    exact Real.rpow_nonneg (by positivity) _
  nlinarith

theorem ediv_ediv_nonneg {a b c : Int} (ha : 0 ≤ a) (hb : 0 ≤ b) (hc : 0 ≤ c) :
    a / b / c = a / (b * c) := by
  lift a to ℕ using ha
  lift b to ℕ using hb
  lift c to ℕ using hc
  rw [← Int.natCast_div, ← Int.natCast_div, ← Nat.cast_mul, ← Int.natCast_div,
    Nat.div_div_eq_div_mul]

theorem wrap32_id {x : Int} (h0 : 0 ≤ x) (h1 : x < 2147483648) : wrap32 x = x := by
  unfold wrap32
  rw [Int.emod_eq_of_lt (by omega) (by omega)]
  omega

/-- C7 counterexample: with start 0, end 10 s and a positive step of 1.5 s
(nanosecond counts), the track builds 11 samples, because the step count
divides whole seconds and counts the 1.5-second step as 1 second; the claim's
1 + floor((end - start)/step) is 7, and the trailing timestamps run past the
end of the range. -/
theorem C7_counterexample :
    track_sample_times 0 10000000000 1500000000 =
      some [0, 1500000000, 3000000000, 4500000000, 6000000000, 7500000000,
        9000000000, 10500000000, 12000000000, 13500000000, 15000000000] ∧
    (1 + (10000000000 - 0) / 1500000000 : Int) = 7 :=
  ⟨by decide, by decide⟩

/-- C7 (amended): for end at or after start and a positive step that is a
whole number of seconds, with the step count inside the i32 range, the track
produces exactly 1 + floor((end - start)/step) sample timestamps, sample i at
start + i*step, strictly increasing and all inside [start, end]; a sub-second
component of the step breaks the count (see the counterexample), and a step
under one second panics on division by zero. -/
theorem C7_sample_times (start endT step : Int) (hstep : 0 < step)
    (hsec : step % 1000000000 = 0) (hrange : start ≤ endT)
    (hfit : 1 + (endT - start) / step < 2147483648) :
    ∃ l, track_sample_times start endT step = some l ∧
      l.length = (1 + (endT - start) / step).toNat ∧
      (∀ i : ℕ, (i : Int) ≤ (endT - start) / step →
        l.get? i = some (start + step * i)) ∧
      List.Pairwise (· < ·) l ∧
      ∀ t ∈ l, start ≤ t ∧ t ≤ endT := by
  obtain ⟨s, rfl⟩ : (1000000000 : Int) ∣ step := Int.dvd_of_emod_eq_zero hsec
  have hs : 0 < s := by
    by_contra hcon
    push_neg at hcon
    nlinarith
  have hΔ : 0 ≤ endT - start := by omega
  unfold track_sample_times num_seconds
  dsimp only
  have hss : Int.tdiv (1000000000 * s) 1000000000 = s :=
    Int.mul_tdiv_cancel_left _ (by norm_num)
  rw [hss, if_neg (by omega)]
  have hdiv : Int.tdiv (Int.tdiv (endT - start) 1000000000) s =
      (endT - start) / (1000000000 * s) := by
    rw [Int.tdiv_eq_ediv hΔ (by norm_num),
      Int.tdiv_eq_ediv (Int.ediv_nonneg hΔ (by norm_num)) hs.le,
      ediv_ediv_nonneg hΔ (by norm_num) hs.le]
  have hq0 : 0 ≤ (endT - start) / (1000000000 * s) :=
    Int.ediv_nonneg hΔ (by positivity)
  rw [hdiv, wrap32_id (by omega) hfit]
  refine ⟨_, rfl, ?_, ?_, ?_, ?_⟩
  · simp
  · intro i hi
    have h2 : (((1 + (endT - start) / (1000000000 * s)).toNat : Int)) =
        1 + (endT - start) / (1000000000 * s) := Int.toNat_of_nonneg (by omega)
    have hilt : i < (1 + (endT - start) / (1000000000 * s)).toNat := by
      have h3 : (i : Int) < 1 + (endT - start) / (1000000000 * s) := by omega
      omega
    rw [List.get?_map, List.get?_range hilt]
    rfl
  · refine List.Pairwise.map _ ?_ (List.pairwise_lt_range _)
    intro a b hab
    have hab2 : (a : Int) < b := by exact_mod_cast hab
    have := mul_lt_mul_of_pos_left hab2 hstep
    omega
  · intro t ht
    simp only [List.mem_map, List.mem_range] at ht
    obtain ⟨i, hi, rfl⟩ := ht
    have h2 : (((1 + (endT - start) / (1000000000 * s)).toNat : Int)) =
        1 + (endT - start) / (1000000000 * s) := Int.toNat_of_nonneg (by omega)
    have hiq : (i : Int) ≤ (endT - start) / (1000000000 * s) := by
      have h3 : (i : Int) < ((1 + (endT - start) / (1000000000 * s)).toNat : Int) := by
        exact_mod_cast hi
      omega
    constructor
    · have hnn : (0 : Int) ≤ 1000000000 * s * i := by positivity
      omega
    · have hstepq : (endT - start) / (1000000000 * s) * (1000000000 * s) ≤ endT - start :=
        Int.ediv_mul_le _ (ne_of_gt (by positivity))
      have hmono : 1000000000 * s * i ≤ 1000000000 * s * ((endT - start) / (1000000000 * s)) :=
        mul_le_mul_of_nonneg_left hiq (by positivity)
      nlinarith

/-- Witness for C7: a 10-second range with a 2-second step gives 6 samples. -/
theorem C7_sample_times_witness :
    (0 : Int) < 2000000000 ∧ (2000000000 : Int) % 1000000000 = 0 ∧
    (0 : Int) ≤ 10000000000 ∧
    1 + ((10000000000 : Int) - 0) / 2000000000 < 2147483648 ∧
    ∃ l, track_sample_times 0 10000000000 2000000000 = some l ∧
      l.length = (1 + ((10000000000 : Int) - 0) / 2000000000).toNat ∧
      (∀ i : ℕ, (i : Int) ≤ ((10000000000 : Int) - 0) / 2000000000 →
        l.get? i = some (0 + 2000000000 * i)) ∧
      List.Pairwise (· < ·) l ∧
      ∀ t ∈ l, (0 : Int) ≤ t ∧ t ≤ 10000000000 := by
  refine ⟨by norm_num, by norm_num, by norm_num, by norm_num, ?_⟩
  exact C7_sample_times 0 10000000000 2000000000 (by norm_num) (by norm_num)
    (by norm_num) (by norm_num)

end Orbit
